import Mathlib

/-!
Verification of the character-level sequence-model training scripts
(`RNN.py` and `Transformermodel.py`): a shallow embedding of the
vocabulary, BPTT batcher, paired dataset construction, accuracy metric,
training-loop state adjustment and greedy decoder, together with
theorems settling the stated properties of these components.
-/

namespace NLPT

/-- Association-list lookup, modelling a Python `dict` read
(`m[k]` / `k in m`): returns `some v` for the binding of `k`,
`none` when `k` is absent (where Python would raise `KeyError`
or the `in` test would be false). -/
def alookup {α β : Type} [DecidableEq α] : List (α × β) → α → Option β
  | [], _ => none
  | (k, v) :: rest, key => if key = k then some v else alookup rest key

/-- The `Vocabulary` class of both scripts: the two dictionaries
`id_to_string` and `string_to_id`, modelled as association lists in
insertion order. -/
structure Vocabulary where
  id_to_string : List (Nat × String)
  string_to_id : List (String × Nat)
deriving DecidableEq, Repr

/-- `self.pad_id = 0` set in `Vocabulary.__init__`. -/
def Vocabulary.pad_id (_ : Vocabulary) : Nat := 0

/-- `self.unk_id = 1` set in `Vocabulary.__init__`. -/
def Vocabulary.unk_id (_ : Vocabulary) : Nat := 1

/-- `self.eos_id = 2` set in the Transformer script's `Vocabulary.__init__`. -/
def Vocabulary.eos_id (_ : Vocabulary) : Nat := 2

/-- `self.sos_id = 3` set in the Transformer script's `Vocabulary.__init__`. -/
def Vocabulary.sos_id (_ : Vocabulary) : Nat := 3

/-- `Vocabulary.__len__`: `len(self.id_to_string)`. -/
def Vocabulary.size (v : Vocabulary) : Nat := v.id_to_string.length

/-- `Vocabulary.__init__` of `RNN.py`: fresh maps holding the pad token
at ID 0 and the unknown token at ID 1. -/
def Vocabulary.init (pad_token unk_token : String) : Vocabulary :=
  { id_to_string := [(0, pad_token), (1, unk_token)],
    string_to_id := [(pad_token, 0), (unk_token, 1)] }

/-- `Vocabulary.__init__` of `Transformermodel.py`: pad at 0, unknown
at 1, end-of-sequence at 2, start-of-sequence at 3. -/
def Vocabulary.initTF (pad_token unk_token eos_token sos_token : String) : Vocabulary :=
  { id_to_string := [(0, pad_token), (1, unk_token), (2, eos_token), (3, sos_token)],
    string_to_id := [(pad_token, 0), (unk_token, 1), (eos_token, 2), (sos_token, 3)] }

/-- `Vocabulary.add_new_word`:
`self.string_to_id[string] = len(self.string_to_id)` and
`self.id_to_string[len(self.id_to_string)] = string`.  Python dict
insertion of a fresh key appends the binding in insertion order. -/
def Vocabulary.add_new_word (v : Vocabulary) (s : String) : Vocabulary :=
  { string_to_id := v.string_to_id ++ [(s, v.string_to_id.length)],
    id_to_string := v.id_to_string ++ [(v.id_to_string.length, s)] }

/-- `Vocabulary.get_idx(string, extend_vocab)`.  Returns the ID together
with the (possibly extended) vocabulary, making the dict mutation of the
Python method explicit.  In the extension branch the method returns
`self.string_to_id[string]` immediately after `add_new_word` stored
`len(self.string_to_id)` there, i.e. the pre-insertion size of
`string_to_id`. -/
def Vocabulary.get_idx (v : Vocabulary) (s : String) (extend_vocab : Bool) :
    Nat × Vocabulary :=
  match alookup v.string_to_id s with
  | some i => (i, v)
  | none =>
    if extend_vocab then
      (v.string_to_id.length, v.add_new_word s)
    else
      (v.unk_id, v)

/-- The token-encoding loop shared by `TextData.text_to_data` and
`ParallelTextDataset.parallel_text_to_data`: map each token of a line
through `get_idx`, threading the vocabulary. -/
def encodeTokens (v : Vocabulary) (ts : List String) (extend_vocab : Bool) :
    List Nat × Vocabulary :=
  match ts with
  | [] => ([], v)
  | t :: rest =>
    let p := v.get_idx t extend_vocab
    let q := encodeTokens p.2 rest extend_vocab
    (p.1 :: q.1, q.2)

/-- Sequences a list of `Option` results: `none` as soon as one element
fails, following Python's first-raise-wins evaluation of a loop of dict
accesses. -/
def mapOption {α β : Type} (f : α → Option β) : List α → Option (List β)
  | [] => some []
  | x :: rest =>
    match f x with
    | none => none
    | some y => (mapOption f rest).map (fun ys => y :: ys)

/-- Mapping every ID back through `id_to_string`; `none` models the
`KeyError` Python raises on an ID absent from the dict. -/
def decodeIds (v : Vocabulary) (ids : List Nat) : Option (List String) :=
  mapOption (fun i => alookup v.id_to_string i) ids

/-- Decoded tokens joined back into one string. -/
def decodeToString (v : Vocabulary) (ids : List Nat) : Option String :=
  (decodeIds v ids).map String.join

/-- Well-formedness of a `Vocabulary`: both dicts have the same size,
every ID key is below the size, IDs are contiguous (every ID below the
size is present), and `id_to_string` inverts every binding of
`string_to_id`.  This holds for the constructors and is preserved by
`add_new_word` on fresh strings. -/
def Vocabulary.WF (v : Vocabulary) : Prop :=
  v.string_to_id.length = v.id_to_string.length ∧
  (∀ p ∈ v.id_to_string, p.1 < v.id_to_string.length) ∧
  (∀ i < v.id_to_string.length, (alookup v.id_to_string i).isSome) ∧
  (∀ p ∈ v.string_to_id, alookup v.id_to_string p.2 = some p.1)

instance (v : Vocabulary) : Decidable v.WF := by
  unfold Vocabulary.WF
  infer_instance

/-! ## The BPTT batcher (`DataBatches.create_batch`, `RNN.py`) -/

/-- `segment_len = text_len // bsz + 1` (line 122 of `RNN.py`):
floor division plus one, applied unconditionally. -/
def segmentLen (text_len bsz : Nat) : Nat := text_len / bsz + 1

/-- `num_batches = segment_len // bptt_len + 1` (line 129 of `RNN.py`). -/
def numBatches (segment_len bptt_len : Nat) : Nat := segment_len / bptt_len + 1

/-- The flat padded buffer:
`padded = input_data.data.new_full((segment_len * bsz,), pad_id)` then
`padded[:text_len] = input_data.data` — the data followed by pad IDs up
to `segment_len * bsz` cells. -/
def paddedFlat (input_data : List Nat) (bsz pad_id : Nat) : List Nat :=
  input_data ++
    List.replicate (segmentLen input_data.length bsz * bsz - input_data.length) pad_id

/-- `padded.view(bsz, segment_len).t()`: the (time, lane) grid whose row
`t` holds, for each lane `j`, cell `j * segment_len + t` of the flat
buffer. -/
def gridOf (padded : List Nat) (bsz segment_len : Nat) : List (List Nat) :=
  (List.range segment_len).map
    (fun t => (List.range bsz).map (fun j => padded.getD (j * segment_len + t) 0))

/-- The loop body of `create_batch`: window 0 is a synthetic pad row
(`padded.new_full((1, bsz), pad_id)`) followed by grid rows
`[0, bptt_len)`; window `i ≥ 1` is grid rows
`[i*bptt_len - 1, (i+1)*bptt_len)`, so each window starts with the
previous window's last row. -/
def windowAt (padded : List (List Nat)) (bsz bptt_len pad_id : Nat) (i : Nat) :
    List (List Nat) :=
  if i = 0 then
    List.replicate bsz pad_id :: padded.take bptt_len
  else
    (padded.drop (i * bptt_len - 1)).take (bptt_len + 1)

/-- `DataBatches.create_batch(input_data, bsz, bptt_len, pad_id)`:
the list of `num_batches` windows over the transposed padded grid. -/
def create_batch (input_data : List Nat) (bsz bptt_len pad_id : Nat) :
    List (List (List Nat)) :=
  let text_len := input_data.length
  let segment_len := segmentLen text_len bsz
  let padded := gridOf (paddedFlat input_data bsz pad_id) bsz segment_len
  (List.range (numBatches segment_len bptt_len)).map
    (windowAt padded bsz bptt_len pad_id)

/-! ## The paired dataset (`ParallelTextDataset.parallel_text_to_data`) -/

/-- The max-length scan over a file's lines:
`if max < length: max = length`, starting from 0. -/
def maxLineLen (lines : List (List String)) : Nat :=
  lines.foldl (fun m l => if m < l.length then l.length else m) 0

/-- The source-side encoding loop: each line's tokens through `get_idx`,
then copied into a fresh buffer of `src_max` cells filled with the pad
ID (`new_seq = var_seq.data.new(src_max).fill_(src_pad_idx)`,
`new_seq[:var_len] = var_seq`). -/
def encodeLinesSrc (v : Vocabulary) (extend_vocab : Bool) (src_max : Nat) :
    List (List String) → List (List Nat) × Vocabulary
  | [] => ([], v)
  | l :: rest =>
    let p := encodeTokens v l extend_vocab
    let new_seq := p.1 ++ List.replicate (src_max - p.1.length) v.pad_id
    let q := encodeLinesSrc p.2 extend_vocab src_max rest
    (new_seq :: q.1, q.2)

/-- One target line before padding: `seq.append(tgt_sos_idx)`, the
encoded tokens, `seq.append(tgt_eos_idx)`. -/
def tgtRawSeq (v : Vocabulary) (extend_vocab : Bool) (l : List String) :
    List Nat × Vocabulary :=
  let p := encodeTokens v l extend_vocab
  (v.sos_id :: (p.1 ++ [v.eos_id]), p.2)

/-- The target-side encoding loop: marker-wrapped sequences copied into
fresh buffers of `tgt_max` cells filled with the pad ID. -/
def encodeLinesTgt (v : Vocabulary) (extend_vocab : Bool) (tgt_max : Nat) :
    List (List String) → List (List Nat) × Vocabulary
  | [] => ([], v)
  | l :: rest =>
    let p := tgtRawSeq v extend_vocab l
    let new_seq := p.1 ++ List.replicate (tgt_max - p.1.length) v.pad_id
    let q := encodeLinesTgt p.2 extend_vocab tgt_max rest
    (new_seq :: q.1, q.2)

/-- `ParallelTextDataset.parallel_text_to_data`: scans both files for
their maximum line length (`tgt_max += 2` for the markers), encodes and
pads both sides, asserts equal line counts (`none` models the failing
`assert len(src_list) == len(tgt_list)`), and pairs the lines
positionally.  Files are modelled as their lists of tokenised lines. -/
def parallel_text_to_data (src_lines tgt_lines : List (List String))
    (src_vocab tgt_vocab : Vocabulary) (extend_vocab : Bool) :
    Option (List (List Nat × List Nat) × Vocabulary × Vocabulary × Nat × Nat) :=
  let src_max := maxLineLen src_lines
  let tgt_max := maxLineLen tgt_lines + 2
  let ps := encodeLinesSrc src_vocab extend_vocab src_max src_lines
  let pt := encodeLinesTgt tgt_vocab extend_vocab tgt_max tgt_lines
  if ps.1.length = pt.1.length then
    some (ps.1.zip pt.1, ps.2, pt.2, src_max, tgt_max)
  else
    none

/-! ## `compute_accuracy` (`Transformermodel.py`) -/

/-- Models the evaluation of the Python condition
`(preds[i] == tgt_[i]).all` in `compute_accuracy`.  The elementwise
`==` of two 1-D tensors raises `RuntimeError` unless their shapes
broadcast — equal lengths, or either length 1 — modelled as `none`.
When the comparison succeeds, `.all` without call parentheses is a
bound-method object, which is truthy regardless of the comparison's
result — modelled as `some true`. -/
def rowCheckEval (x y : List Int) : Option Bool :=
  if x.length = y.length ∨ x.length = 1 ∨ y.length = 1 then some true else none

/-- `compute_accuracy(preds, tgt_)`: iterates `i` over
`range(tgt_.shape[0])` evaluating `if (preds[i] == tgt_[i]).all:` — the
indexing (`IndexError` out of range) and the elementwise comparison
(`RuntimeError` on non-broadcastable rows) can abort the loop, modelled
by the `Option` accumulator; a surviving row always increments
`correct` because the bound-method condition is truthy.  The final
`correct/total` raises `ZeroDivisionError` when `total = 0` — also
`none`. -/
def compute_accuracy (preds tgt_ : List (List Int)) : Option ℚ :=
  let total := tgt_.length
  let correct := (List.range total).foldl
    (fun c i =>
      c.bind (fun c =>
        (preds[i]?).bind (fun px =>
          (tgt_[i]?).bind (fun tx =>
            (rowCheckEval px tx).map (fun b => if b then c + 1 else c)))))
    (some (0 : ℚ))
  correct.bind (fun c => if total = 0 then none else some (c / (total : ℚ)))

/-! ## The training loop's ragged-batch state adjustment (`RNN.py`) -/

/-- The mid-epoch batch-width check of the training loop
(lines 286–289 of `RNN.py`):
`prev_bsz = state_h.shape[1]; if bsz != prev_bsz: state = state[:, :bsz, :]`.
The branch body reads the name `state`, which is bound nowhere in the
script (only `state_h` and `state_c` exist), so taking the branch raises
`NameError` — modelled as `Except.error` — and in particular neither
`state_h` nor `state_c` is ever narrowed.  States have shape
(layers, lanes, hidden). -/
def adjustState {α : Type} (state_h state_c : List (List (List α))) (bsz : Nat) :
    Except String (List (List (List α)) × List (List (List α))) :=
  let prev_bsz := (state_h.headD []).length
  if bsz ≠ prev_bsz then
    Except.error "NameError: name 'state' is not defined"
  else
    Except.ok (state_h, state_c)

/-! ## The decoder (`complete`, `RNN.py`) -/

/-- Abstraction of the trained LSTM used by `complete`: `initState`
models `model.init_hidden(1)`, and `stepSeq st ids` models one call
`logits, st = model(x, st)` on the column of IDs `ids` followed by the
greedy choice `torch.topk(softmax(logits[-1]), k=1)` — it returns the
updated recurrent state and the chosen next-token ID. -/
structure LMOracle (σ : Type) where
  initState : σ
  stepSeq : σ → List Nat → σ × Nat

/-- The greedy decoding loop of `complete` (`for k in range(steps)`):
each iteration feeds the previous choice back in, looks the new choice
up in `id_to_string` (`none` models a `KeyError` on an ID outside the
dict) and appends the token string to `out_list`. -/
def decodeSteps {σ : Type} (m : LMOracle σ) (v : Vocabulary) :
    Nat → σ → Nat → Option (List String)
  | 0, _, _ => some []
  | k + 1, st, ix =>
    let p := m.stepSeq st [ix]
    match alookup v.id_to_string p.2 with
    | none => none
    | some s => (decodeSteps m v k p.1 p.2).map (fun rest => s :: rest)

/-- The token strings accumulated in `out_list` by
`complete(model, prompt, steps, sample=False)`.  The prompt characters
are encoded by the direct dict access
`my_data.vocab.string_to_id[char]` — `none` models the `KeyError` on a
character outside the vocabulary.  An empty prompt yields an empty
logits tensor, so `logits[-1]` raises `IndexError` — also `none`.
Otherwise the prompt is forwarded once, one token is chosen from the
final distribution, and `steps` further tokens are generated. -/
def completeTokens {σ : Type} (m : LMOracle σ) (v : Vocabulary)
    (prompt : String) (steps : Nat) : Option (List String) :=
  match mapOption (fun c => alookup v.string_to_id (String.singleton c)) prompt.toList with
  | none => none
  | some prompt_list =>
    if prompt_list.isEmpty then none
    else
      let p := m.stepSeq m.initState prompt_list
      match alookup v.id_to_string p.2 with
      | none => none
      | some s0 => (decodeSteps m v steps p.1 p.2).map (fun rest => s0 :: rest)

/-- `complete`'s return value `''.join(out_list)`. -/
def complete {σ : Type} (m : LMOracle σ) (v : Vocabulary)
    (prompt : String) (steps : Nat) : Option String :=
  (completeTokens m v prompt steps).map String.join

/-- A trivial instantiation of the model abstraction, used to evaluate
the decoder on concrete inputs: state `Unit`, every greedy choice is
ID 0. -/
def trivOracle : LMOracle Unit := { initState := (), stepSeq := fun _ _ => ((), 0) }

/-! ## Helper lemmas about association-list lookup -/

theorem alookup_append_some {α β : Type} [DecidableEq α] {m : List (α × β)}
    (m2 : List (α × β)) {k : α} {x : β} (h : alookup m k = some x) :
    alookup (m ++ m2) k = some x := by
  induction m with
  | nil => simp [alookup] at h
  | cons p rest ih =>
    obtain ⟨a, b⟩ := p
    by_cases hk : k = a
    · simp [alookup, hk] at h ⊢
      exact h
    · simp [alookup, hk] at h ⊢
      exact ih h

theorem alookup_append_none {α β : Type} [DecidableEq α] {m : List (α × β)}
    (m2 : List (α × β)) {k : α} (h : alookup m k = none) :
    alookup (m ++ m2) k = alookup m2 k := by
  induction m with
  | nil => simp
  | cons p rest ih =>
    obtain ⟨a, b⟩ := p
    by_cases hk : k = a
    · simp [alookup, hk] at h
    · simp [alookup, hk] at h ⊢
      exact ih h

theorem alookup_mem {α β : Type} [DecidableEq α] {m : List (α × β)} {k : α} {x : β}
    (h : alookup m k = some x) : (k, x) ∈ m := by
  induction m with
  | nil => simp [alookup] at h
  | cons p rest ih =>
    obtain ⟨a, b⟩ := p
    by_cases hk : k = a
    · simp [alookup, hk] at h
      subst hk h
      exact List.mem_cons_self _ _
    · simp [alookup, hk] at h
      exact List.mem_cons_of_mem _ (ih h)

theorem alookup_none_of_keys_lt {β : Type} {m : List (Nat × β)} {n : Nat}
    (h : ∀ p ∈ m, p.1 < n) : alookup m n = none := by
  induction m with
  | nil => rfl
  | cons p rest ih =>
    obtain ⟨a, b⟩ := p
    have ha : a < n := h (a, b) (List.mem_cons_self _ _)
    have : n ≠ a := fun he => absurd (he ▸ ha) (lt_irrefl n)
    simp [alookup, this]
    exact ih (fun q hq => h q (List.mem_cons_of_mem _ hq))

theorem alookup_append_isSome {α β : Type} [DecidableEq α] {m : List (α × β)}
    (m2 : List (α × β)) {k : α} (h : (alookup m k).isSome) :
    (alookup (m ++ m2) k).isSome := by
  obtain ⟨x, hx⟩ := Option.isSome_iff_exists.mp h
  rw [alookup_append_some m2 hx]
  rfl

/-! ## Helper lemmas about `mapOption` -/

theorem mapOption_eq_none_of_mem {α β : Type} {l : List α} {f : α → Option β} {a : α}
    (ha : a ∈ l) (hf : f a = none) : mapOption f l = none := by
  induction l with
  | nil => simp at ha
  | cons x rest ih =>
    rcases List.mem_cons.mp ha with h | h
    · subst h
      simp [mapOption, hf]
    · cases hx : f x with
      | none => simp [mapOption, hx]
      | some y => simp [mapOption, hx, ih h]

theorem mapOption_isSome_of_forall {α β : Type} {l : List α} {f : α → Option β}
    (h : ∀ a ∈ l, (f a).isSome) :
    ∃ ys, mapOption f l = some ys ∧ ys.length = l.length := by
  induction l with
  | nil => exact ⟨[], rfl, rfl⟩
  | cons x rest ih =>
    obtain ⟨y, hy⟩ := Option.isSome_iff_exists.mp (h x (List.mem_cons_self _ _))
    obtain ⟨ys, hys, hlen⟩ := ih (fun a ha => h a (List.mem_cons_of_mem _ ha))
    exact ⟨y :: ys, by simp [mapOption, hy, hys], by simp [hlen]⟩

/-! ## Helper lemmas about the vocabulary -/

theorem add_new_word_sound {v : Vocabulary} (hv : v.WF) {t : String}
    (_ht : alookup v.string_to_id t = none) :
    (v.add_new_word t).WF ∧
    alookup (v.add_new_word t).id_to_string v.string_to_id.length = some t := by
  obtain ⟨hlen, hlt, hcomp, hinv⟩ := hv
  have hfresh : alookup v.id_to_string v.id_to_string.length = none :=
    alookup_none_of_keys_lt hlt
  have hnew : alookup (v.id_to_string ++ [(v.id_to_string.length, t)])
      v.id_to_string.length = some t := by
    rw [alookup_append_none _ hfresh]
    simp [alookup]
  refine ⟨⟨?_, ?_, ?_, ?_⟩, ?_⟩
  · simp [Vocabulary.add_new_word, hlen]
  · intro p hp
    simp only [Vocabulary.add_new_word, List.length_append, List.length_singleton]
    rcases List.mem_append.mp hp with h | h
    · exact Nat.lt_succ_of_lt (hlt p h)
    · simp at h
      simp [h]
  · intro i hi
    simp only [Vocabulary.add_new_word, List.length_append, List.length_singleton] at hi
    rcases Nat.lt_succ_iff_lt_or_eq.mp hi with h | h
    · exact alookup_append_isSome _ (hcomp i h)
    · subst h
      simp only [Vocabulary.add_new_word]
      rw [hnew]
      rfl
  · intro p hp
    simp only [Vocabulary.add_new_word] at hp ⊢
    rcases List.mem_append.mp hp with h | h
    · exact alookup_append_some _ (hinv p h)
    · simp at h
      subst h
      simpa [hlen] using hnew
  · simp only [Vocabulary.add_new_word]
    rw [hlen]
    exact hnew

theorem get_idx_true_sound {v : Vocabulary} (hv : v.WF) (t : String) :
    ((v.get_idx t true).2).WF ∧
    alookup ((v.get_idx t true).2).id_to_string (v.get_idx t true).1 = some t := by
  cases h : alookup v.string_to_id t with
  | some i =>
    simp only [Vocabulary.get_idx, h]
    exact ⟨hv, hv.2.2.2 _ (alookup_mem h)⟩
  | none =>
    simp only [Vocabulary.get_idx, h, if_pos]
    exact add_new_word_sound hv h

theorem get_idx_i2s_prefix (v : Vocabulary) (t : String) (b : Bool) :
    ∃ m, ((v.get_idx t b).2).id_to_string = v.id_to_string ++ m := by
  cases h : alookup v.string_to_id t with
  | some i =>
    exact ⟨[], by simp [Vocabulary.get_idx, h]⟩
  | none =>
    cases b with
    | false => exact ⟨[], by simp [Vocabulary.get_idx, h]⟩
    | true =>
      exact ⟨[(v.id_to_string.length, t)], by simp [Vocabulary.get_idx, h, Vocabulary.add_new_word]⟩

theorem encodeTokens_i2s_stable {v : Vocabulary} {ts : List String} {b : Bool}
    {i : Nat} {s : String} (h : alookup v.id_to_string i = some s) :
    alookup ((encodeTokens v ts b).2).id_to_string i = some s := by
  induction ts generalizing v with
  | nil => exact h
  | cons t rest ih =>
    simp only [encodeTokens]
    obtain ⟨m, hm⟩ := get_idx_i2s_prefix v t b
    exact ih (by rw [hm]; exact alookup_append_some _ h)

theorem encodeTokens_length (v : Vocabulary) (ts : List String) (b : Bool) :
    (encodeTokens v ts b).1.length = ts.length := by
  induction ts generalizing v with
  | nil => rfl
  | cons t rest ih => simp [encodeTokens, ih]

theorem encodeTokens_decode {v : Vocabulary} (hv : v.WF) (ts : List String) :
    ((encodeTokens v ts true).2).WF ∧
    decodeIds ((encodeTokens v ts true).2) ((encodeTokens v ts true).1) = some ts := by
  induction ts generalizing v with
  | nil => exact ⟨hv, rfl⟩
  | cons t rest ih =>
    obtain ⟨hwf1, hdec1⟩ := get_idx_true_sound hv t
    obtain ⟨hwf2, hdec2⟩ := ih hwf1
    have hstable : alookup ((encodeTokens (v.get_idx t true).2 rest true).2).id_to_string
        (v.get_idx t true).1 = some t := encodeTokens_i2s_stable hdec1
    refine ⟨?_, ?_⟩
    · simpa [encodeTokens] using hwf2
    · simp only [encodeTokens, decodeIds, mapOption]
      simp only [decodeIds] at hdec2
      rw [hstable, hdec2]
      rfl

theorem get_idx_s2i_none {v : Vocabulary} {s t : String} {b : Bool}
    (h : alookup v.string_to_id s = none) (hne : s ≠ t) :
    alookup ((v.get_idx t b).2).string_to_id s = none := by
  cases ht : alookup v.string_to_id t with
  | some i => simpa [Vocabulary.get_idx, ht] using h
  | none =>
    cases b with
    | false => simpa [Vocabulary.get_idx, ht] using h
    | true =>
      simp only [Vocabulary.get_idx, ht, if_pos, Vocabulary.add_new_word]
      rw [alookup_append_none _ h]
      simp [alookup, hne]

theorem encodeTokens_s2i_none {v : Vocabulary} {ts : List String} {s : String} {b : Bool}
    (h : alookup v.string_to_id s = none) (hs : s ∉ ts) :
    alookup ((encodeTokens v ts b).2).string_to_id s = none := by
  induction ts generalizing v with
  | nil => exact h
  | cons t rest ih =>
    simp only [encodeTokens]
    have hne : s ≠ t := fun he => hs (he ▸ List.mem_cons_self _ _)
    exact ih (get_idx_s2i_none h hne) (fun hr => hs (List.mem_cons_of_mem _ hr))

/-! ## Helper lemmas about `String.join` -/

theorem foldl_append_data (l : List String) (acc : String) :
    (l.foldl (· ++ ·) acc).data = acc.data ++ (l.map String.data).flatten := by
  induction l generalizing acc with
  | nil => simp
  | cons s rest ih => simp [ih, String.data_append]

theorem string_join_map_singleton (cs : List Char) :
    String.join (cs.map String.singleton) = String.mk cs := by
  have hd : (String.join (cs.map String.singleton)).data = cs := by
    show ((cs.map String.singleton).foldl (· ++ ·) "").data = cs
    rw [foldl_append_data]
    have : (cs.map String.singleton).map String.data = cs.map (fun c => [c]) := by
      simp [String.singleton]
    rw [this]
    have : (cs.map (fun c => [c])).flatten = cs := by
      induction cs with
      | nil => rfl
      | cons c rest ih => simp [ih]
    simp [this]
  ext1
  exact hd

theorem string_join_singleton_toList (S : String) :
    String.join (S.toList.map String.singleton) = S :=
  string_join_map_singleton S.toList

/-! ## Claim theorems -/

/-- C3 (as stated, refuted): in `complete`, a prompt character absent
from the vocabulary is NOT mapped to the unknown ID — the direct dict
access `my_data.vocab.string_to_id[char]` fails (Python `KeyError`), so
decoding does not proceed.  Concretely, over the fresh vocabulary
(whose only keys are the control tokens `<pad>` and `<unk>`), the
prompt `"a"` makes `complete` fail instead of returning a completion. -/
theorem claim_C3_cex :
    complete trivOracle (Vocabulary.init "<pad>" "<unk>") "a" 0 = none := by
  decide

/-- C3 (amended): for every model, vocabulary, number of steps and
prompt containing a character whose singleton string is not a key of
`string_to_id`, the decoder `complete` fails (raises `KeyError`,
modelled as `none`) instead of substituting the unknown ID. -/
theorem claim_C3 {σ : Type} (m : LMOracle σ) (v : Vocabulary) (prompt : String)
    (steps : Nat) (c : Char) (hc : c ∈ prompt.toList)
    (hnone : alookup v.string_to_id (String.singleton c) = none) :
    complete m v prompt steps = none := by
  have h := mapOption_eq_none_of_mem
    (f := fun c => alookup v.string_to_id (String.singleton c)) hc hnone
  have hd : mapOption (fun c => alookup v.string_to_id (String.singleton c))
      prompt.data = none := h
  simp [complete, completeTokens, hd]

/-- Witness for C3's amended theorem at the prompt `"b"`. -/
theorem claim_C3_witness :
    complete trivOracle (Vocabulary.init "<pad>" "<unk>") "b" 0 = none :=
  claim_C3 trivOracle (Vocabulary.init "<pad>" "<unk>") "b" 0 'b' (by decide) (by decide)

/-- C4 (code bug): when the incoming batch width (here 1) differs from
the carried state's lane count (here 2), the training loop's branch
`state = state[:, :bsz, :]` reads the unbound name `state` and raises
`NameError`; neither `state_h` nor `state_c` is truncated and the
subsequent forward pass is never reached. -/
theorem claim_C4 :
    adjustState (α := Int) [[[0], [0]]] [[[0], [0]]] 1
      = Except.error "NameError: name 'state' is not defined" := rfl

/-- C5 (as stated, refuted): batching `[2,3,4,3,2,4]` with `B = 2` does
NOT yield `segment_len = 3` — the code computes
`segment_len = 6 // 2 + 1 = 4` — and the padded grid is not the one the
spec displays. -/
theorem claim_C5_cex :
    segmentLen 6 2 ≠ 3 ∧
    gridOf (paddedFlat [2, 3, 4, 3, 2, 4] 2 0) 2 (segmentLen 6 2)
      ≠ [[2, 3, 2], [3, 2, 4], [4, 4, 0]] := by
  decide

/-- C5 (amended): batching `[2,3,4,3,2,4]` with `B = 2`, `W = 2` yields
`segment_len = 4`, the padded flat buffer `[2,3,4,3,2,4,0,0]`, the
(time, lane) grid `[[2,2],[3,4],[4,0],[3,0]]`, and three windows whose
first is prefixed with the pad row `[0,0]`. -/
theorem claim_C5 :
    segmentLen 6 2 = 4 ∧
    paddedFlat [2, 3, 4, 3, 2, 4] 2 0 = [2, 3, 4, 3, 2, 4, 0, 0] ∧
    gridOf (paddedFlat [2, 3, 4, 3, 2, 4] 2 0) 2 (segmentLen 6 2)
      = [[2, 2], [3, 4], [4, 0], [3, 0]] ∧
    create_batch [2, 3, 4, 3, 2, 4] 2 2 0
      = [[[0, 0], [2, 2], [3, 4]], [[3, 4], [4, 0], [3, 0]], [[3, 0]]] := by
  decide

/-- C6: encoding any string character-by-character through `get_idx`
with `extend_vocab = True` over any well-formed vocabulary, then
mapping every resulting ID back through `id_to_string` of the extended
vocabulary, reconstructs the string exactly. -/
theorem claim_C6 (v : Vocabulary) (hv : v.WF) (S : String) :
    decodeToString ((encodeTokens v (S.toList.map String.singleton) true).2)
        ((encodeTokens v (S.toList.map String.singleton) true).1) = some S := by
  obtain ⟨_, hdec⟩ := encodeTokens_decode hv (S.toList.map String.singleton)
  unfold decodeToString
  rw [hdec, Option.map_some', string_join_singleton_toList]

/-- Witness for C6 at the fresh vocabulary and the string `"ab"`. -/
theorem claim_C6_witness :
    decodeToString ((encodeTokens (Vocabulary.init "<pad>" "<unk>")
        ("ab".toList.map String.singleton) true).2)
      ((encodeTokens (Vocabulary.init "<pad>" "<unk>")
        ("ab".toList.map String.singleton) true).1) = some "ab" :=
  claim_C6 (Vocabulary.init "<pad>" "<unk>") (by decide) "ab"

/-- C7: on a vocabulary constructed by extension from the fresh one,
`get_idx` with `extend_vocab = False` on any string that is neither a
control token nor one of the added tokens returns the unknown ID 1 and
returns the vocabulary itself — both maps keep their size and all their
mappings, and no exception is raised (the function is total). -/
theorem claim_C7 (pad_token unk_token : String) (ts : List String) (s : String)
    (h1 : s ≠ pad_token) (h2 : s ≠ unk_token) (h3 : s ∉ ts) :
    ((encodeTokens (Vocabulary.init pad_token unk_token) ts true).2).get_idx s false
      = (1, (encodeTokens (Vocabulary.init pad_token unk_token) ts true).2) := by
  have h0 : alookup (Vocabulary.init pad_token unk_token).string_to_id s = none := by
    simp [Vocabulary.init, alookup, h1, h2]
  have h := encodeTokens_s2i_none (b := true) h0 h3
  simp [Vocabulary.get_idx, h, Vocabulary.unk_id]

/-- Witness for C7: vocabulary built from `["a"]`, looked up at `"b"`. -/
theorem claim_C7_witness :
    ((encodeTokens (Vocabulary.init "<pad>" "<unk>") ["a"] true).2).get_idx "b" false
      = (1, (encodeTokens (Vocabulary.init "<pad>" "<unk>") ["a"] true).2) :=
  claim_C7 "<pad>" "<unk>" ["a"] "b" (by decide) (by decide) (by decide)

/-- Helper: whenever the comparison of two rows does not raise, its
truthy bound-method condition evaluates as `some true`. -/
theorem rowCheckEval_eq_some_true {x y : List Int}
    (h : (rowCheckEval x y).isSome) : rowCheckEval x y = some true := by
  unfold rowCheckEval at h ⊢
  by_cases hc : x.length = y.length ∨ x.length = 1 ∨ y.length = 1
  · rw [if_pos hc]
  · rw [if_neg hc] at h
    simp at h

/-- C9 (as stated, refuted): `compute_accuracy` does not return 1.0 for
EVERY pair of inputs with equal leading dimension: at leading
dimension 0 the final `correct/total` divides by zero, and at
non-broadcastable row shapes (here a row of 2 elements against a row
of 3) the elementwise `==` raises `RuntimeError`; in both cases the
call fails instead of returning 1.0. -/
theorem claim_C9_cex :
    compute_accuracy [] [] = none ∧ compute_accuracy [] [] ≠ some 1 ∧
    compute_accuracy [[1, 2]] [[3, 4, 5]] = none ∧
    compute_accuracy [[1, 2]] [[3, 4, 5]] ≠ some 1 := by
  decide

/-- C9 (amended): `compute_accuracy` does not measure token-level
correctness: for every pair of inputs whose leading dimensions have
equal, positive size and whose corresponding rows are elementwise
comparable (broadcastable shapes — in particular equal row lengths),
it returns 1.0 regardless of the tensors' contents, because the
per-example check tests the truthy bound-method reference
`(preds[i] == tgt_[i]).all` rather than elementwise equality. -/
theorem claim_C9 (preds tgt_ : List (List Int))
    (hlen : preds.length = tgt_.length) (hne : tgt_ ≠ [])
    (hrows : ∀ i < tgt_.length,
      (rowCheckEval (preds.getD i []) (tgt_.getD i [])).isSome) :
    compute_accuracy preds tgt_ = some 1 := by
  have htot : tgt_.length ≠ 0 := fun h => hne (List.eq_nil_of_length_eq_zero h)
  have hfold : ∀ n, n ≤ tgt_.length → ∀ a : ℚ,
      (List.range n).foldl
        (fun c i =>
          c.bind (fun c =>
            (preds[i]?).bind (fun px =>
              (tgt_[i]?).bind (fun tx =>
                (rowCheckEval px tx).map (fun b => if b then c + 1 else c)))))
        (some a) = some (a + n) := by
    intro n
    induction n with
    | zero =>
      intro _ a
      simp
    | succ k ih =>
      intro hn a
      rw [List.range_succ, List.foldl_append, ih (by omega) a]
      have hkt : k < tgt_.length := by omega
      have hkp : k < preds.length := by omega
      have hr := hrows k hkt
      rw [List.getD_eq_getElem preds [] hkp, List.getD_eq_getElem tgt_ [] hkt] at hr
      simp only [List.foldl_cons, List.foldl_nil, Option.some_bind]
      rw [List.getElem?_eq_getElem hkp, List.getElem?_eq_getElem hkt]
      simp only [Option.some_bind]
      rw [rowCheckEval_eq_some_true hr]
      simp only [Option.map_some', if_true]
      congr 1
      push_cast
      ring
  simp only [compute_accuracy]
  rw [hfold tgt_.length (le_refl _) 0]
  simp only [Option.some_bind]
  rw [if_neg htot, zero_add, div_self (Nat.cast_ne_zero.mpr htot)]

/-- Witness for C9's amended theorem on a pair of visibly different
one-row inputs of equal row length. -/
theorem claim_C9_witness : compute_accuracy [[5]] [[7]] = some 1 :=
  claim_C9 [[5]] [[7]] rfl (by decide) (by decide)

/-! ## Lemmas for the batcher's shape claims -/

theorem length_le_segmentLen_mul {L bsz : Nat} (hb : 0 < bsz) :
    L ≤ segmentLen L bsz * bsz := by
  unfold segmentLen
  have h1 : bsz * (L / bsz) + L % bsz = L := Nat.div_add_mod L bsz
  have h2 : L % bsz < bsz := Nat.mod_lt _ hb
  have h3 : L < bsz * (L / bsz + 1) := by
    calc L = bsz * (L / bsz) + L % bsz := h1.symm
    _ < bsz * (L / bsz) + bsz := Nat.add_lt_add_left h2 _
    _ = bsz * (L / bsz + 1) := (Nat.mul_succ _ _).symm
  rw [Nat.mul_comm]
  exact Nat.le_of_lt h3

/-- C1 (as stated, refuted): for the corpus `[2,3]` with `B = 2` and
`W = 2` the claim predicts `segment_len = ceil(2/2) = 1`, a padded
buffer of `B * 1 = 2` cells and `ceil(segment_len/W) = 1` window; the
code computes `segment_len = 2 // 2 + 1 = 2`, pads to 4 cells and
produces 2 windows. -/
theorem claim_C1_cex :
    segmentLen 2 2 ≠ 1 ∧
    (paddedFlat [2, 3] 2 0).length ≠ 2 * 1 ∧
    (create_batch [2, 3] 2 2 0).length ≠ 1 := by
  decide

/-- C1 (amended): for every corpus, lane count `B > 0` and window
length `W > 0`, the batcher computes `segment_len = L // B + 1` (which
equals `ceil(L/B)` only when `B` does not divide `L`), pads the flat ID
sequence to exactly `B * segment_len` cells with the pad ID, reshapes
it into a (time, lane) grid of `segment_len` rows of `B` lanes each,
and produces `segment_len // W + 1` windows. -/
theorem claim_C1 (input_data : List Nat) (bsz bptt_len pad_id : Nat)
    (hb : 0 < bsz) (_hw : 0 < bptt_len) :
    (paddedFlat input_data bsz pad_id).length
      = bsz * segmentLen input_data.length bsz ∧
    (gridOf (paddedFlat input_data bsz pad_id) bsz
        (segmentLen input_data.length bsz)).length
      = segmentLen input_data.length bsz ∧
    (∀ row ∈ gridOf (paddedFlat input_data bsz pad_id) bsz
        (segmentLen input_data.length bsz), row.length = bsz) ∧
    (create_batch input_data bsz bptt_len pad_id).length
      = numBatches (segmentLen input_data.length bsz) bptt_len := by
  refine ⟨?_, ?_, ?_, ?_⟩
  · simp only [paddedFlat, List.length_append, List.length_replicate]
    rw [Nat.add_sub_cancel' (length_le_segmentLen_mul hb), Nat.mul_comm]
  · simp [gridOf]
  · intro row hr
    simp only [gridOf, List.mem_map] at hr
    obtain ⟨t, _, rfl⟩ := hr
    simp
  · simp [create_batch]

/-- Witness for C1's amended theorem on the corpus `[2,3,4]` with
`B = 2`, `W = 2` (the grid there is `[[2,4],[3,0]]`). -/
theorem claim_C1_witness :
    (paddedFlat [2, 3, 4] 2 0).length = 2 * segmentLen 3 2 ∧
    (gridOf (paddedFlat [2, 3, 4] 2 0) 2 (segmentLen 3 2)).length = segmentLen 3 2 ∧
    ([2, 4] : List Nat).length = 2 ∧
    (create_batch [2, 3, 4] 2 2 0).length = numBatches (segmentLen 3 2) 2 := by
  have h := claim_C1 [2, 3, 4] 2 2 0 (by decide) (by decide)
  exact ⟨h.1, h.2.1, h.2.2.1 [2, 4] (by decide), h.2.2.2⟩

/-! ## Lemmas for the paired-dataset claims -/

theorem maxScan_init_le (lines : List (List String)) :
    ∀ init : Nat,
      init ≤ lines.foldl (fun m l => if m < l.length then l.length else m) init := by
  induction lines with
  | nil => intro init; exact le_refl _
  | cons l rest ih =>
    intro init
    refine le_trans ?_ (ih (if init < l.length then l.length else init))
    by_cases h : init < l.length
    · simp [h]
      exact le_of_lt h
    · simp [h]

theorem maxScan_mem_le (lines : List (List String)) :
    ∀ init : Nat, ∀ l ∈ lines,
      l.length ≤ lines.foldl (fun m l => if m < l.length then l.length else m) init := by
  induction lines with
  | nil =>
    intro init l hl
    simp at hl
  | cons x rest ih =>
    intro init l hl
    rcases List.mem_cons.mp hl with h | h
    · subst h
      refine le_trans ?_ (maxScan_init_le rest (if init < l.length then l.length else init))
      by_cases hx : init < l.length
      · simp [hx]
      · simp [hx]
        omega
    · exact ih (if init < x.length then x.length else init) l h

theorem maxLineLen_ge {lines : List (List String)} {l : List String} (h : l ∈ lines) :
    l.length ≤ maxLineLen lines :=
  maxScan_mem_le lines 0 l h

theorem encodeLinesSrc_mem_length {smax : Nat} {ext : Bool} :
    ∀ (lines : List (List String)) (v : Vocabulary),
      (∀ l ∈ lines, l.length ≤ smax) →
      ∀ x ∈ (encodeLinesSrc v ext smax lines).1, x.length = smax := by
  intro lines
  induction lines with
  | nil =>
    intro v _ x hx
    simp [encodeLinesSrc] at hx
  | cons l rest ih =>
    intro v hle x hx
    simp only [encodeLinesSrc] at hx
    rcases List.mem_cons.mp hx with h | h
    · subst h
      have h1 : (encodeTokens v l ext).1.length = l.length := encodeTokens_length v l ext
      have h2 : l.length ≤ smax := hle l (List.mem_cons_self _ _)
      simp only [List.length_append, List.length_replicate, h1]
      omega
    · exact ih (encodeTokens v l ext).2 (fun y hy => hle y (List.mem_cons_of_mem _ hy)) x h

theorem tgtRawSeq_length (v : Vocabulary) (ext : Bool) (l : List String) :
    (tgtRawSeq v ext l).1.length = l.length + 2 := by
  simp [tgtRawSeq, encodeTokens_length]

theorem encodeLinesTgt_mem_length {tmax : Nat} {ext : Bool} :
    ∀ (lines : List (List String)) (v : Vocabulary),
      (∀ l ∈ lines, l.length + 2 ≤ tmax) →
      ∀ x ∈ (encodeLinesTgt v ext tmax lines).1, x.length = tmax := by
  intro lines
  induction lines with
  | nil =>
    intro v _ x hx
    simp [encodeLinesTgt] at hx
  | cons l rest ih =>
    intro v hle x hx
    simp only [encodeLinesTgt] at hx
    rcases List.mem_cons.mp hx with h | h
    · subst h
      have h1 : (tgtRawSeq v ext l).1.length = l.length + 2 := tgtRawSeq_length v ext l
      have h2 : l.length + 2 ≤ tmax := hle l (List.mem_cons_self _ _)
      simp only [List.length_append, List.length_replicate, h1]
      omega
    · exact ih (tgtRawSeq v ext l).2 (fun y hy => hle y (List.mem_cons_of_mem _ hy)) x h

/-- C8: for every paired dataset successfully built from aligned
source/target line lists, each paired example's padded source has
length equal to the global maximum source line length (no markers are
added on the source side), each padded target has length equal to the
global maximum raw target line length + 2; and each encoded target,
before padding, is exactly the start-marker ID followed by the line's
token IDs followed by the end-marker ID, of length raw line length
+ 2. -/
theorem claim_C8 (src_lines tgt_lines : List (List String))
    (src_vocab tgt_vocab : Vocabulary) (ext : Bool)
    (out : List (List Nat × List Nat) × Vocabulary × Vocabulary × Nat × Nat)
    (h : parallel_text_to_data src_lines tgt_lines src_vocab tgt_vocab ext = some out)
    (v : Vocabulary) (l : List String) :
    (∀ p ∈ out.1,
      p.1.length = maxLineLen src_lines ∧ p.2.length = maxLineLen tgt_lines + 2) ∧
    (tgtRawSeq v ext l).1 = v.sos_id :: ((encodeTokens v l ext).1 ++ [v.eos_id]) ∧
    (tgtRawSeq v ext l).1.length = l.length + 2 := by
  refine ⟨?_, rfl, tgtRawSeq_length v ext l⟩
  simp only [parallel_text_to_data] at h
  split at h
  · simp only [Option.some.injEq] at h
    subst h
    intro p hp
    obtain ⟨h1, h2⟩ := List.of_mem_zip (show (p.1, p.2) ∈ _ by simpa using hp)
    constructor
    · exact encodeLinesSrc_mem_length src_lines src_vocab
        (fun y hy => maxLineLen_ge hy) p.1 h1
    · exact encodeLinesTgt_mem_length tgt_lines tgt_vocab
        (fun y hy => by have := maxLineLen_ge hy; omega) p.2 h2
  · exact absurd h (by simp)

/-- Witness for C8 on the dataset with source lines `["a"]`,
`["b","c"]` and target lines `["x"]`, `["y"]`, extending the fresh
Transformer vocabularies. -/
theorem claim_C8_witness :
    (([4, 0], [3, 4, 2]) : List Nat × List Nat).1.length
      = maxLineLen [["a"], ["b", "c"]] ∧
    (([4, 0], [3, 4, 2]) : List Nat × List Nat).2.length
      = maxLineLen [["x"], ["y"]] + 2 ∧
    (tgtRawSeq (Vocabulary.initTF "<pad>" "<unk>" "<eos>" "<sos>") true ["x"]).1
      = (Vocabulary.initTF "<pad>" "<unk>" "<eos>" "<sos>").sos_id ::
        ((encodeTokens (Vocabulary.initTF "<pad>" "<unk>" "<eos>" "<sos>") ["x"] true).1
          ++ [(Vocabulary.initTF "<pad>" "<unk>" "<eos>" "<sos>").eos_id]) ∧
    (tgtRawSeq (Vocabulary.initTF "<pad>" "<unk>" "<eos>" "<sos>") true ["x"]).1.length
      = (["x"] : List String).length + 2 := by
  have h := claim_C8 [["a"], ["b", "c"]] [["x"], ["y"]]
    (Vocabulary.initTF "<pad>" "<unk>" "<eos>" "<sos>")
    (Vocabulary.initTF "<pad>" "<unk>" "<eos>" "<sos>") true
    ([([4, 0], [3, 4, 2]), ([5, 6], [3, 5, 2])],
      ⟨[(0, "<pad>"), (1, "<unk>"), (2, "<eos>"), (3, "<sos>"), (4, "a"), (5, "b"), (6, "c")],
       [("<pad>", 0), ("<unk>", 1), ("<eos>", 2), ("<sos>", 3), ("a", 4), ("b", 5), ("c", 6)]⟩,
      ⟨[(0, "<pad>"), (1, "<unk>"), (2, "<eos>"), (3, "<sos>"), (4, "x"), (5, "y")],
       [("<pad>", 0), ("<unk>", 1), ("<eos>", 2), ("<sos>", 3), ("x", 4), ("y", 5)]⟩,
      2, 3)
    (by decide) (Vocabulary.initTF "<pad>" "<unk>" "<eos>" "<sos>") ["x"]
  exact ⟨(h.1 ([4, 0], [3, 4, 2]) (by decide)).1,
    (h.1 ([4, 0], [3, 4, 2]) (by decide)).2, h.2.1, h.2.2⟩

/-! ## Lemmas for the decoder claims -/

theorem string_data_ne_nil {s : String} (h : s ≠ "") : s.data ≠ [] := by
  intro hd
  apply h
  cases s
  simp at hd
  simp [hd]

theorem decodeSteps_total {σ : Type} (m : LMOracle σ) {v : Vocabulary} (hv : v.WF)
    (hm : ∀ st ids, (m.stepSeq st ids).2 < v.size) :
    ∀ (steps : Nat) (st : σ) (ix : Nat),
      ∃ l, decodeSteps m v steps st ix = some l ∧ l.length = steps := by
  intro steps
  induction steps with
  | zero =>
    intro st ix
    exact ⟨[], rfl, rfl⟩
  | succ k ih =>
    intro st ix
    have hlt : (m.stepSeq st [ix]).2 < v.id_to_string.length := hm st [ix]
    obtain ⟨s, hs⟩ := Option.isSome_iff_exists.mp (hv.2.2.1 _ hlt)
    obtain ⟨l, hl, hlen⟩ := ih (m.stepSeq st [ix]).1 (m.stepSeq st [ix]).2
    refine ⟨s :: l, ?_, by simp [hlen]⟩
    simp only [decodeSteps]
    rw [hs, hl]
    rfl

/-- C10 (as stated, refuted): on the empty prompt — all of whose
characters are vacuously in the vocabulary — with `steps = 0`,
`complete` fails (the empty prompt produces an empty logits tensor and
`logits[-1]` raises `IndexError`) instead of returning one generated
character. -/
theorem claim_C10_cex :
    complete trivOracle (Vocabulary.init "<pad>" "<unk>") "" 0 = none := by
  decide

/-- C10 (amended): for every well-formed vocabulary, every model whose
greedy choices always lie inside the vocabulary's ID range (true of the
LSTM, whose output layer has exactly `vocab_size` classes), every
NONEMPTY prompt whose characters are all in the vocabulary and every
`steps ≥ 0`, `complete(model, prompt, steps, sample=False)` succeeds
and returns the concatenation of exactly `steps + 1` generated tokens:
one chosen from the prompt's final next-token distribution plus one per
decoding iteration. -/
theorem claim_C10 {σ : Type} (m : LMOracle σ) (v : Vocabulary) (prompt : String)
    (steps : Nat) (hv : v.WF)
    (hm : ∀ st ids, (m.stepSeq st ids).2 < v.size)
    (hprompt : prompt ≠ "")
    (hin : ∀ c ∈ prompt.toList, (alookup v.string_to_id (String.singleton c)).isSome) :
    (completeTokens m v prompt steps).map List.length = some (steps + 1) ∧
    (complete m v prompt steps).isSome := by
  obtain ⟨ids, hids, hidslen⟩ := mapOption_isSome_of_forall hin
  have hne : ids ≠ [] := by
    intro h
    subst h
    exact string_data_ne_nil hprompt (List.length_eq_zero.mp hidslen.symm)
  have hemp : ids.isEmpty = false := by
    cases ids with
    | nil => exact absurd rfl hne
    | cons a l => rfl
  have hlt : (m.stepSeq m.initState ids).2 < v.id_to_string.length := hm m.initState ids
  obtain ⟨s0, hs0⟩ := Option.isSome_iff_exists.mp (hv.2.2.1 _ hlt)
  obtain ⟨rest, hrest, hrestlen⟩ :=
    decodeSteps_total m hv hm steps (m.stepSeq m.initState ids).1 (m.stepSeq m.initState ids).2
  have htoks : completeTokens m v prompt steps = some (s0 :: rest) := by
    simp only [completeTokens]
    rw [hids]
    simp only [hemp, Bool.false_eq_true, if_false]
    rw [hs0, hrest]
    rfl
  rw [htoks]
  refine ⟨by simp [hrestlen], ?_⟩
  simp [complete, htoks]

/-- A tiny extended vocabulary (the fresh one after encoding `"a"`),
used to evaluate the decoder concretely. -/
def vocabA : Vocabulary := (encodeTokens (Vocabulary.init "<pad>" "<unk>") ["a"] true).2

/-! ## Lemmas for the window-overlap and reconstruction claim -/

theorem getD_map_range {α : Type} (f : Nat → α) {n i : Nat} (h : i < n) (d : α) :
    ((List.range n).map f).getD i d = f i := by
  simp [List.getD_eq_getD_get?, List.get?_eq_getElem?, List.getElem?_map,
    List.getElem?_range h]

theorem head?_take_succ {α : Type} (l : List α) (n : Nat) :
    (l.take (n + 1)).head? = l.head? := by
  cases l <;> rfl

theorem getLast?_cons_of_ne_nil {α : Type} (a : α) {l : List α} (h : l ≠ []) :
    (a :: l).getLast? = l.getLast? := by
  cases l with
  | nil => exact absurd rfl h
  | cons b m => exact List.getLast?_cons_cons ..

theorem getLast?_slice {α : Type} (g : List α) {k m : Nat} (hm : 0 < m)
    (hle : k + m ≤ g.length) :
    ((g.drop k).take m).getLast? = g[k + m - 1]? := by
  have hlen : ((g.drop k).take m).length = m := by
    simp only [List.length_take, List.length_drop]
    omega
  rw [List.getLast?_eq_getElem?, hlen,
    List.getElem?_take_of_lt (by omega : m - 1 < m), List.getElem?_drop]
  congr 1
  omega

theorem windowAt_zero_head? (g : List (List Nat)) (bsz W pad : Nat) :
    (windowAt g bsz W pad 0).head? = some (List.replicate bsz pad) := rfl

theorem windowAt_pos_head? (g : List (List Nat)) (bsz W pad : Nat) {i : Nat}
    (hi : 0 < i) : (windowAt g bsz W pad i).head? = g[i * W - 1]? := by
  unfold windowAt
  rw [if_neg (Nat.pos_iff_ne_zero.mp hi), head?_take_succ, List.head?_drop]

theorem windowAt_zero_getLast? (g : List (List Nat)) (bsz W pad : Nat)
    (hw : 0 < W) (hle : W ≤ g.length) :
    (windowAt g bsz W pad 0).getLast? = g[W - 1]? := by
  unfold windowAt
  rw [if_pos rfl]
  have hlen : (g.take W).length = W := by
    rw [List.length_take, Nat.min_eq_left hle]
  have hne : g.take W ≠ [] := by
    intro h
    rw [h] at hlen
    exact (Nat.pos_iff_ne_zero.mp hw) hlen.symm
  rw [getLast?_cons_of_ne_nil _ hne]
  have := getLast?_slice g (k := 0) (m := W) hw (by omega)
  simpa using this

theorem windowAt_pos_getLast? (g : List (List Nat)) (bsz W pad : Nat) {j : Nat}
    (hw : 0 < W) (hj : 0 < j) (hle : j * W + W ≤ g.length) :
    (windowAt g bsz W pad j).getLast? = g[j * W + W - 1]? := by
  unfold windowAt
  rw [if_neg (Nat.pos_iff_ne_zero.mp hj)]
  have hjw : 1 ≤ j * W := Nat.mul_le_mul hj hw
  have := getLast?_slice g (k := j * W - 1) (m := W + 1) (by omega) (by omega)
  rw [this]
  congr 1
  omega

theorem windowAt_drop_one (g : List (List Nat)) (bsz W pad : Nat) (hw : 0 < W)
    (i : Nat) : (windowAt g bsz W pad i).drop 1 = (g.drop (i * W)).take W := by
  unfold windowAt
  by_cases hi : i = 0
  · subst hi
    simp
  · rw [if_neg hi, List.drop_take, List.drop_drop]
    have hjw : 1 ≤ i * W := Nat.mul_le_mul (Nat.pos_iff_ne_zero.mpr hi) hw
    have h1 : W + 1 - 1 = W := by omega
    have h2 : i * W - 1 + 1 = i * W := by omega
    rw [h1, h2]

theorem flatten_take_windows {α : Type} (g : List α) (W : Nat) :
    ∀ n, ((List.range n).map (fun i => (g.drop (i * W)).take W)).flatten
      = g.take (n * W) := by
  intro n
  induction n with
  | zero => simp
  | succ k ih =>
    rw [List.range_succ, List.map_append, List.flatten_append, ih]
    simp only [List.map_cons, List.map_nil, List.flatten_cons, List.flatten_nil,
      List.append_nil]
    rw [← List.take_add, Nat.succ_mul]

/-- C2: for every corpus, lane count `B > 0` and window length `W > 0`,
the windows produced by `create_batch` satisfy: window 0 begins with
one synthetic pad-filled row; for every `i ≥ 1` the first row of window
`i` equals the last row of window `i - 1`; and concatenating the
windows' rows after discarding the first (duplicated or synthetic) row
of every window reconstructs the padded (time, lane) grid exactly, in
time-major order. -/
theorem claim_C2 (input_data : List Nat) (bsz bptt_len pad_id : Nat)
    (_hb : 0 < bsz) (hw : 0 < bptt_len) :
    ((create_batch input_data bsz bptt_len pad_id).getD 0 []).head?
      = some (List.replicate bsz pad_id) ∧
    (∀ i, 0 < i → i < (create_batch input_data bsz bptt_len pad_id).length →
      ((create_batch input_data bsz bptt_len pad_id).getD i []).head?
        = ((create_batch input_data bsz bptt_len pad_id).getD (i - 1) []).getLast?) ∧
    ((create_batch input_data bsz bptt_len pad_id).map (List.drop 1)).flatten
      = gridOf (paddedFlat input_data bsz pad_id) bsz
          (segmentLen input_data.length bsz) := by
  set S := segmentLen input_data.length bsz with hS
  set g := gridOf (paddedFlat input_data bsz pad_id) bsz S with hgdef
  have hglen : g.length = S := by
    simp [hgdef, gridOf]
  have hcb : create_batch input_data bsz bptt_len pad_id
      = (List.range (numBatches S bptt_len)).map (windowAt g bsz bptt_len pad_id) := rfl
  have hnb : 0 < numBatches S bptt_len := Nat.succ_pos _
  have hlen : (create_batch input_data bsz bptt_len pad_id).length
      = numBatches S bptt_len := by
    rw [hcb]
    simp
  refine ⟨?_, ?_, ?_⟩
  · rw [hcb, getD_map_range _ hnb]
    exact windowAt_zero_head? g bsz bptt_len pad_id
  · intro i hi hilt
    rw [hlen] at hilt
    have him : i - 1 < numBatches S bptt_len := by omega
    rw [hcb, getD_map_range _ hilt, getD_map_range _ him,
      windowAt_pos_head? g bsz bptt_len pad_id hi]
    have hiq : i ≤ S / bptt_len := by
      unfold numBatches at hilt
      omega
    have hile : i * bptt_len ≤ S := by
      calc i * bptt_len ≤ (S / bptt_len) * bptt_len := Nat.mul_le_mul_right _ hiq
      _ ≤ S := Nat.div_mul_le_self _ _
    by_cases h1 : i = 1
    · subst h1
      have hWle : bptt_len ≤ g.length := by
        rw [hglen]
        simpa using hile
      rw [windowAt_zero_getLast? g bsz bptt_len pad_id hw hWle]
      congr 1
      omega
    · have hj : 0 < i - 1 := by omega
      have hmul : (i - 1) * bptt_len + bptt_len = i * bptt_len := by
        rw [← Nat.succ_mul]
        congr 1
        omega
      have hjle : (i - 1) * bptt_len + bptt_len ≤ g.length := by
        rw [hglen]
        omega
      rw [windowAt_pos_getLast? g bsz bptt_len pad_id hw hj hjle]
      congr 1
      omega
  · rw [hcb, List.map_map]
    have hfun : (List.drop 1 ∘ windowAt g bsz bptt_len pad_id)
        = fun i => (g.drop (i * bptt_len)).take bptt_len := by
      funext i
      exact windowAt_drop_one g bsz bptt_len pad_id hw i
    rw [hfun, flatten_take_windows]
    apply List.take_of_length_le
    rw [hglen]
    exact @length_le_segmentLen_mul S bptt_len hw

/-- Witness for C2 on the corpus `[2,3,4,3,2,4]`, `B = 2`, `W = 2`,
extracting the pad-row fact, the overlap at window 1 and the
reconstruction identity. -/
theorem claim_C2_witness :
    ((create_batch [2, 3, 4, 3, 2, 4] 2 2 0).getD 0 []).head?
      = some (List.replicate 2 0) ∧
    ((create_batch [2, 3, 4, 3, 2, 4] 2 2 0).getD 1 []).head?
      = ((create_batch [2, 3, 4, 3, 2, 4] 2 2 0).getD 0 []).getLast? ∧
    ((create_batch [2, 3, 4, 3, 2, 4] 2 2 0).map (List.drop 1)).flatten
      = gridOf (paddedFlat [2, 3, 4, 3, 2, 4] 2 0) 2 (segmentLen 6 2) := by
  have h := claim_C2 [2, 3, 4, 3, 2, 4] 2 2 0 (by decide) (by decide)
  exact ⟨h.1, h.2.1 1 (by decide) (by decide), h.2.2⟩

/-- Witness for C10's amended theorem: prompt `"a"`, two decoding
steps, trivial greedy model. -/
theorem claim_C10_witness :
    (completeTokens trivOracle vocabA "a" 2).map List.length = some 3 ∧
    (complete trivOracle vocabA "a" 2).isSome := by
  have hm : ∀ (st : Unit) (ids : List Nat), (trivOracle.stepSeq st ids).2 < vocabA.size := by
    intro st ids
    show 0 < vocabA.size
    decide
  exact claim_C10 trivOracle vocabA "a" 2 (by decide) hm (by decide) (by decide)

end NLPT
